import Mathlib

/-!
Shallow embedding of `src/remap-rolling.js`: a script that extracts
2019 date literals from a github-painter template, maps them to
(week-column, weekday-row) grid coordinates, computes a column shift
that places the drawing inside the rolling 53-week window per an
alignment mode, and rewrites the literals.

Calendar arithmetic mirrors the JavaScript `Date` UTC model: instants
are integer milliseconds since the Unix epoch, `Date.UTC` normalizes
out-of-range month/day arguments, and `getUTCDay`/`getUTCMonth`/… read
the UTC civil date of an instant.
-/

/-- Days-since-epoch of a Gregorian civil date (year, month 1..12, day).
The day argument may be out of range; it contributes linearly, exactly as
JavaScript `Date.UTC` treats out-of-range day numbers. -/
def daysFromCivil (y m d : Int) : Int :=
  let y1 := y - (if m ≤ 2 then 1 else 0)
  let era := Int.fdiv y1 400
  let yoe := y1 - era * 400
  let mp := Int.emod (m + 9) 12
  let doy := Int.fdiv (153 * mp + 2) 5 + d - 1
  let doe := yoe * 365 + Int.fdiv yoe 4 - Int.fdiv yoe 100 + doy
  era * 146097 + doe - 719468

/-- Gregorian civil date (year, month 1..12, day) of a days-since-epoch count. -/
def civilFromDays (z0 : Int) : Int × Int × Int :=
  let z := z0 + 719468
  let era := Int.fdiv z 146097
  let doe := z - era * 146097
  let yoe := Int.fdiv (doe - Int.fdiv doe 1460 + Int.fdiv doe 36524 - Int.fdiv doe 146096) 365
  let y := yoe + era * 400
  let doy := doe - (365 * yoe + Int.fdiv yoe 4 - Int.fdiv yoe 100)
  let mp := Int.fdiv (5 * doy + 2) 153
  let d := doy - Int.fdiv (153 * mp + 2) 5 + 1
  let m := mp + (if mp < 10 then 3 else -9)
  (y + (if m ≤ 2 then 1 else 0), m, d)

/-- `Date.UTC(y, m, d)` in milliseconds: JavaScript month argument is
0-based and normalized by rollover; years 0..99 are interpreted as 1900+y. -/
def dateUTCms (y m d : Int) : Int :=
  let yAdj := if 0 ≤ y ∧ y ≤ 99 then y + 1900 else y
  let yy := yAdj + Int.fdiv m 12
  let mm := Int.emod m 12
  86400000 * daysFromCivil yy (mm + 1) d

/-- `new Date(ms).getUTCDay()`: weekday 0=Sunday .. 6=Saturday of an instant
(the Unix epoch 1970-01-01 was a Thursday, weekday 4). -/
def wdMs (ms : Int) : Int :=
  Int.emod (Int.fdiv ms 86400000 + 4) 7

/-- `gridStartUTC(year)` from the source: the Sunday on or before January 1. -/
def gridStartUTC (year : Int) : Int :=
  let jan1 := dateUTCms year 0 1
  jan1 - wdMs jan1 * 86400000

/-- `weekStartUTC(dayUTCms)` from the source: Sunday 00:00 UTC of that week. -/
def weekStartUTC (dayUTCms : Int) : Int :=
  dayUTCms - wdMs dayUTCms * 86400000

/-- `toColRow` from the source: `i => ({ col: Math.floor(i / 7), row: i % 7 })`.
`Math.floor` division is `Int.fdiv`; the JavaScript `%` is `Int.tmod`. -/
def toColRow (i : Int) : Int × Int :=
  (Int.fdiv i 7, Int.tmod i 7)

/-- `fromColRow` from the source: `(c, r) => c * 7 + r`. -/
def fromColRow (c r : Int) : Int :=
  c * 7 + r

/-- Day index of a calendar day against an origin, as computed on line 102
of the source (`Math.floor((parseFullDayUTC(s) - start2019) / 86400000)`),
followed by `toColRow`. -/
def toGrid (day origin : Int) : Int × Int :=
  toColRow (Int.fdiv (day - origin) 86400000)

/-- Inverse direction, as computed on line 158 of the source
(`windowStartUTC + newIdxFromWindow * 86400000`). -/
def fromGrid (p : Int × Int) (origin : Int) : Int :=
  origin + fromColRow p.1 p.2 * 86400000

/-- The three alignment modes of the `--align` flag. -/
inductive Align where
  | left
  | center
  | right
deriving DecidableEq

/-- Error outcomes of a run: `Bad date` from `parseFullDayUTC`, the
`Drawing uses … columns` error, and the `Cannot align drawing …` error. -/
inductive Err where
  | badDate
  | drawingTooWide
  | unavoidableFutureDate
deriving DecidableEq

/-- `violatesFuture` from line 142 of the source:
`p => (p.col + shiftCols === rightmostCol) && (p.row > todayRow)`
with `rightmostCol = 52`. -/
def violatesFuture (shiftCols todayRow : Int) (p : Int × Int) : Bool :=
  (p.1 + shiftCols == 52) && decide (todayRow < p.2)

/-- `Math.min(...colRows.map(p => p.col))` (the list is nonempty in the
source; the `[]` case is a dummy). -/
def colsMin : List (Int × Int) → Int
  | [] => 0
  | p :: ps => ps.foldl (fun x q => min x q.1) p.1

/-- `Math.max(...colRows.map(p => p.col))`. -/
def colsMax : List (Int × Int) → Int
  | [] => 0
  | p :: ps => ps.foldl (fun x q => max x q.1) p.1

/-- The `while (colRows.some(violatesFuture) && (minCol + shiftCols > 0))`
loop of lines 143-145. One unit of fuel stands for one unit of headroom
`minCol + shiftCols`; the caller supplies `(minCol + shiftCols).toNat`, so
`fuel = 0` is exactly the exit condition `minCol + shiftCols ≤ 0` and each
decrement of `shiftCols` burns one unit. -/
def alignLoop (colRows : List (Int × Int)) (todayRow : Int) : Nat → Int → Int
  | 0, shiftCols => shiftCols
  | fuel + 1, shiftCols =>
    if colRows.any (violatesFuture shiftCols todayRow) then
      alignLoop colRows todayRow fuel (shiftCols - 1)
    else
      shiftCols

/-- Lines 126-135 of the source: the candidate shift for each alignment
mode (`GRID_WEEKS = 53`, `rightmostCol = 52`). -/
def candShift (a : Align) (minCol maxCol width : Int) : Int :=
  match a with
  | .left => 0 - minCol
  | .right => 52 - maxCol
  | .center => Int.fdiv (53 - width) 2 - minCol

/-- Lines 124-145 of the source: the candidate shift for the alignment
mode, the clamp into `[-minCol, rightmostCol - maxCol]`, and the
future-day decrement loop. -/
def alignedShift (a : Align) (colRows : List (Int × Int)) (todayRow : Int) : Int :=
  let minCol := colsMin colRows
  let maxCol := colsMax colRows
  let width := maxCol - minCol + 1
  let s2 := min (max (candShift a minCol maxCol width) (-minCol)) (52 - maxCol)
  alignLoop colRows todayRow (minCol + s2).toNat s2

/-- Lines 117-151 of the source: the `width > GRID_WEEKS` check, the
alignment computation, and the final `colRows.some(violatesFuture)` check. -/
def computeShift (a : Align) (colRows : List (Int × Int)) (todayRow : Int) :
    Except Err Int :=
  let width := colsMax colRows - colsMin colRows + 1
  if 53 < width then
    .error .drawingTooWide
  else if colRows.any (violatesFuture (alignedShift a colRows todayRow) todayRow) then
    .error .unavoidableFutureDate
  else
    .ok (alignedShift a colRows todayRow)

/-- The `DOW` table of the source. -/
def DOW : List String :=
  ["Sun", "Mon", "Tue", "Wed", "Thu", "Fri", "Sat"]

/-- The `MON` table of the source. -/
def MON : List String :=
  ["Jan", "Feb", "Mar", "Apr", "May", "Jun", "Jul", "Aug", "Sep", "Oct", "Nov", "Dec"]

/-- `MON.indexOf(monStr)`: index of a month token, `-1` when absent. -/
def monIndexAux : List String → List Char → Int → Int
  | [], _, _ => -1
  | m :: ms, s, i => if m.data = s then i else monIndexAux ms s (i + 1)

/-- `MON.indexOf` applied to a three-letter token, as on line 39. -/
def monIndex (s : List Char) : Int :=
  monIndexAux MON s 0

/-- JavaScript character class `[A-Z]`. -/
def isUpperC (c : Char) : Bool :=
  decide ('A' ≤ c) && decide (c ≤ 'Z')

/-- JavaScript character class `[a-z]`. -/
def isLowerC (c : Char) : Bool :=
  decide ('a' ≤ c) && decide (c ≤ 'z')

/-- JavaScript character class `\d`. -/
def isDigitC (c : Char) : Bool :=
  decide ('0' ≤ c) && decide (c ≤ '9')

/-- The common members of the JavaScript character class `\s`. -/
def isWsC (c : Char) : Bool :=
  c == ' ' || c == '\t' || c == '\n' || c == '\x0d' || c == '\x0b' || c == '\x0c'

/-- Numeric value of `+"dd"` on a two-digit field. -/
def num2 (d1 d2 : Char) : Int :=
  ((10 * (d1.toNat - 48) + (d2.toNat - 48) : Nat) : Int)

/-- Numeric value of `+"dddd"` on a four-digit field. -/
def num4 (y1 y2 y3 y4 : Char) : Int :=
  ((1000 * (y1.toNat - 48) + 100 * (y2.toNat - 48) + 10 * (y3.toNat - 48)
    + (y4.toNat - 48) : Nat) : Int)

/-- `parseFullDayUTC` from lines 34-40 of the source: match
`^([A-Z][a-z]{2}) ([A-Z][a-z]{2}) (\d{2}) (\d{4}) ` (single literal
spaces, trailing space required), throw `Bad date` on mismatch, otherwise
return `Date.UTC(yyyy, MON.indexOf(monStr), dd)`. The weekday token is
matched but its value is never consulted. -/
def parseFullDayUTC (s : List Char) : Except Err Int :=
  match s with
  | w1 :: w2 :: w3 :: ' ' :: m1 :: m2 :: m3 :: ' ' :: d1 :: d2 :: ' '
      :: y1 :: y2 :: y3 :: y4 :: ' ' :: _ =>
    if isUpperC w1 && isLowerC w2 && isLowerC w3
        && isUpperC m1 && isLowerC m2 && isLowerC m3
        && isDigitC d1 && isDigitC d2
        && isDigitC y1 && isDigitC y2 && isDigitC y3 && isDigitC y4 then
      .ok (dateUTCms (num4 y1 y2 y3 y4) (monIndex [m1, m2, m3]) (num2 d1 d2))
    else
      .error .badDate
  | _ => .error .badDate

/-- `String(n).padStart(2, "0")` for the day-of-month field. -/
def pad2 (n : Int) : List Char :=
  let s := Nat.toDigits 10 n.toNat
  if s.length ≤ 1 then '0' :: s else s

/-- JavaScript `String(i)` for an integer. -/
def intToStr (i : Int) : List Char :=
  if i < 0 then '-' :: Nat.toDigits 10 (-i).toNat else Nat.toDigits 10 i.toNat

/-- `fmtUTCNoon` from lines 41-48 of the source: add twelve hours, then
render `"${dow} ${mon} ${dd} ${yyyy} 12:00:00 GMT+0000 (UTC)"` from the
UTC fields of that instant. -/
def fmtUTCNoon (dayUTCms : Int) : List Char :=
  let noon := dayUTCms + 12 * 3600 * 1000
  let days := Int.fdiv noon 86400000
  let wd := Int.emod (days + 4) 7
  let c := civilFromDays days
  (DOW.getD wd.toNat "").data ++ [' '] ++ (MON.getD (c.2.1 - 1).toNat "").data
    ++ [' '] ++ pad2 c.2.2 ++ [' '] ++ intToStr c.1
    ++ " 12:00:00 GMT+0000 (UTC)".data

/-- The new day index of `remapOne` (line 157):
`fromColRow(col + shiftCols, row)` of the old index's column and row. -/
def remapIdx (shiftCols oldIdx : Int) : Int :=
  fromColRow ((toColRow oldIdx).1 + shiftCols) (toColRow oldIdx).2

/-- The new instant of `remapOne` (line 158):
`windowStartUTC + newIdxFromWindow * 86400000`. -/
def remapDay (windowStartUTC shiftCols oldIdx : Int) : Int :=
  windowStartUTC + remapIdx shiftCols oldIdx * 86400000

/-- `remapOne` from lines 154-160 of the source: parse the matched
literal, compute its day index from the 2019 grid start, move it by
`shiftCols` columns, and render the result at noon UTC. -/
def remapOneStr (windowStartUTC shiftCols start2019 : Int) (fullStr : List Char) :
    Except Err (List Char) := do
  let ms ← parseFullDayUTC fullStr
  let oldIdx := Int.fdiv (ms - start2019) 86400000
  pure (fmtUTCNoon (remapDay windowStartUTC shiftCols oldIdx))

/-- Split a text into its `\n`-separated lines (the source's `m`-flag
patterns are line oriented). -/
def splitNl : List Char → List (List Char)
  | [] => [[]]
  | c :: rest =>
    if c = '\n' then [] :: splitNl rest
    else
      match splitNl rest with
      | [] => [[c]]
      | l :: ls => (c :: l) :: ls

/-- Rejoin lines with `\n`; exact inverse of `splitNl`. -/
def joinNl : List (List Char) → List Char
  | [] => []
  | [l] => l
  | l :: ls => l ++ '\n' :: joinNl ls

/-- Consume an exact literal from the front of a text. -/
def dropLit : List Char → List Char → Option (List Char)
  | [], s => some s
  | _ :: _, [] => none
  | c :: cs, d :: ds => if c = d then dropLit cs ds else none

/-- Split a text at the first character failing `p`. -/
def spanP (p : Char → Bool) : List Char → List Char × List Char
  | [] => ([], [])
  | c :: rest =>
    if p c then
      match spanP p rest with
      | (t, r) => (c :: t, r)
    else ([], c :: rest)

/-- Greedy `\s+`: one mandatory whitespace character, then a maximal run;
returns the matched run and the remainder. -/
def takeWsPlus : List Char → Option (List Char × List Char)
  | [] => none
  | c :: rest =>
    if isWsC c then
      match spanP isWsC rest with
      | (w, r) => some (c :: w, r)
    else none

/-- `\s+` where only the remainder is needed. -/
def dropWsPlus (s : List Char) : Option (List Char) :=
  (takeWsPlus s).map Prod.snd

/-- Consume a sequence of literal words separated by greedy `\s+`. The
greedy run is exact because every following word starts with a
non-whitespace character. -/
def litWsChain : List (List Char) → List Char → Option (List Char)
  | [], s => some s
  | [w], s => dropLit w s
  | w :: ws, s =>
    match dropLit w s with
    | none => none
    | some s1 =>
      match dropWsPlus s1 with
      | none => none
      | some s2 => litWsChain ws s2

/-- A line matched by one of the five sanitizing patterns of lines 79-85
(`^mkdir\s+github_painter.*$`, `^cd\s+github_painter.*$`, `^git\s+init.*$`,
`^git\s+remote\s+add\s+origin.*$`, `^git\s+pull\s+origin.*$`). -/
def isSetupLine (l : List Char) : Bool :=
  (litWsChain ["mkdir".data, "github_painter".data] l).isSome
    || (litWsChain ["cd".data, "github_painter".data] l).isSome
    || (litWsChain ["git".data, "init".data] l).isSome
    || (litWsChain ["git".data, "remote".data, "add".data, "origin".data] l).isSome
    || (litWsChain ["git".data, "pull".data, "origin".data] l).isSome

/-- The sanitizing step of lines 79-85: every matching line is replaced by
the empty string (its newline survives). -/
def sanitize (input : List Char) : List Char :=
  joinNl ((splitNl input).map fun l => if isSetupLine l then [] else l)

/-- Single character of a class. -/
def takeClass (p : Char → Bool) : List Char → Option (Char × List Char)
  | [] => none
  | c :: rest => if p c then some (c, rest) else none

/-- Predicate for one exact character. -/
def classEq (x : Char) : Char → Bool :=
  fun c => c == x

/-- Match a fixed sequence of single-character classes, returning the
consumed characters (the matched text) and the remainder. -/
def takeClasses : List (Char → Bool) → List Char → Option (List Char × List Char)
  | [], s => some ([], s)
  | p :: ps, s =>
    match takeClass p s with
    | none => none
    | some (c, s1) =>
      match takeClasses ps s1 with
      | none => none
      | some (cs, r) => some (c :: cs, r)

/-- The fixed-width head of the `FULL_2019` pattern, one single-character
class per position:
`[A-Z][a-z]{2}\s[A-Z][a-z]{2}\s\d{2}\s2019\s\d{2}:\d{2}:\d{2}\sGMT[+-]\d{4}\s\(`. -/
def full2019Head : List (Char → Bool) :=
  [isUpperC, isLowerC, isLowerC, isWsC,
   isUpperC, isLowerC, isLowerC, isWsC,
   isDigitC, isDigitC, isWsC,
   classEq '2', classEq '0', classEq '1', classEq '9', isWsC,
   isDigitC, isDigitC, classEq ':', isDigitC, isDigitC, classEq ':',
   isDigitC, isDigitC, isWsC,
   classEq 'G', classEq 'M', classEq 'T',
   fun c => c == '+' || c == '-',
   isDigitC, isDigitC, isDigitC, isDigitC, isWsC,
   classEq '(']

/-- Matcher for the `FULL_2019` pattern of lines 18-19. Returns the
matched substring and the remainder. Each quantifier is deterministic:
the fixed-width classes, and the greedy `[^)]+` whose continuation `\)`
can only match at the first `)`. -/
def matchFull2019 (s : List Char) : Option (List Char × List Char) :=
  match takeClasses full2019Head s with
  | none => none
  | some (hd, s1) =>
    match spanP (fun c => !(c == ')')) s1 with
    | (zn, s2) =>
      if zn.isEmpty then none
      else
        match s2 with
        | ')' :: s3 => some (hd ++ zn ++ [')'], s3)
        | _ => none

/-- Matcher for the five-group `commitRe` of lines 169-171:
`(git\s+commit\s+--date=')([^']*)('\s+-m\s+')(FULL_2019)(')`. Returns the
matched text of the five groups and the remainder. The greedy `\s+` and
`[^']*` runs are deterministic because each continuation starts with a
character excluded from the preceding class. -/
def matchCommit5 (s : List Char) :
    Option ((List Char × List Char × List Char × List Char × List Char) × List Char) :=
  match dropLit "git".data s with
  | none => none
  | some s1 =>
  match takeWsPlus s1 with
  | none => none
  | some (ws1, s2) =>
  match dropLit "commit".data s2 with
  | none => none
  | some s3 =>
  match takeWsPlus s3 with
  | none => none
  | some (ws2, s4) =>
  match dropLit "--date='".data s4 with
  | none => none
  | some s5 =>
  match spanP (fun c => !(c == '\x27')) s5 with
  | (anyDate, s6) =>
  match dropLit "'".data s6 with
  | none => none
  | some s7 =>
  match takeWsPlus s7 with
  | none => none
  | some (ws3, s8) =>
  match dropLit "-m".data s8 with
  | none => none
  | some s9 =>
  match takeWsPlus s9 with
  | none => none
  | some (ws4, s10) =>
  match dropLit "'".data s10 with
  | none => none
  | some s11 =>
  match matchFull2019 s11 with
  | none => none
  | some (msgDate, s12) =>
  match dropLit "'".data s12 with
  | none => none
  | some s13 =>
    some (("git".data ++ ws1 ++ "commit".data ++ ws2 ++ "--date='".data,
      anyDate,
      "'".data ++ ws3 ++ "-m".data ++ ws4 ++ "'".data,
      msgDate, "'".data), s13)

/-- The body of `msgRe` (lines 88-91) after its `(?:^|\n)` anchor; it is
textually the same pattern as `commitRe`, capturing only the date of the
`-m` message. -/
def matchCommitBody (s : List Char) : Option (List Char × List Char) :=
  (matchCommit5 s).map fun g => (g.1.2.2.2.1, g.2)

/-- The `msgRe.exec` loop of lines 92-93: repeated leftmost search. A
match body is tried exactly at line starts (position 0 or just after a
`\n`), matching the `(?:^|\n)` anchor with the `m` flag. Fuel is the
remaining text length; every step consumes at least one character. -/
def scanGo (fuel : Nat) (s : List Char) (atStart : Bool) : List (List Char) :=
  match fuel, s with
  | 0, _ => []
  | _ + 1, [] => []
  | fuel + 1, c :: rest =>
    if atStart then
      match matchCommitBody (c :: rest) with
      | some (cap, r2) => cap :: scanGo fuel r2 false
      | none => scanGo fuel rest (c = '\n')
    else scanGo fuel rest (c = '\n')

/-- All `m[1]` captures of the `msgRe` scan, in text order. -/
def scanMsgs (s : List Char) : List (List Char) :=
  scanGo s.length s true

/-- Global replacement of `FULL_2019` matches inside one matched `echo`
line (line 165: `line.replace(FULL_2019, remapOne)`); a thrown `Bad date`
propagates. -/
def replFullGo (windowStartUTC shiftCols start2019 : Int) :
    Nat → List Char → Except Err (List Char)
  | 0, s => .ok s
  | fuel + 1, s =>
    match matchFull2019 s with
    | some (m, rest) => do
      let rep ← remapOneStr windowStartUTC shiftCols start2019 m
      let tl ← replFullGo windowStartUTC shiftCols start2019 fuel rest
      pure (rep ++ tl)
    | none =>
      match s with
      | [] => pure []
      | c :: r => do
        let tl ← replFullGo windowStartUTC shiftCols start2019 fuel r
        pure (c :: tl)

/-- Line test for `/^echo\s+'.*$/`. -/
def echoLineTest (l : List Char) : Bool :=
  (litWsChain ["echo".data, "'".data] l).isSome

/-- The echo-line pass of lines 163-166: on every line matching
`^echo\s+'`, replace each `FULL_2019` occurrence with `remapOne`. -/
def echoPass (windowStartUTC shiftCols start2019 : Int) (input : List Char) :
    Except Err (List Char) := do
  let ls ← (splitNl input).mapM fun l =>
    if echoLineTest l then replFullGo windowStartUTC shiftCols start2019 l.length l
    else pure l
  pure (joinNl ls)

/-- The `commitRe` global replacement of lines 169-176: each match
`(a)(anyDate)(b)(msgDate)(e)` is rewritten to `a+mapped+b+mapped+e` with
`mapped = remapOne(msgDate)`; the `--date` group is never used. Fuel is
the remaining text length; every step consumes at least one character. -/
def commitGo (windowStartUTC shiftCols start2019 : Int) :
    Nat → List Char → Except Err (List Char)
  | 0, s => .ok s
  | fuel + 1, s =>
    match matchCommit5 s with
    | some ((a, _, b, msgDate, e), rest) => do
      let mapped ← remapOneStr windowStartUTC shiftCols start2019 msgDate
      let tl ← commitGo windowStartUTC shiftCols start2019 fuel rest
      pure (a ++ mapped ++ b ++ mapped ++ e ++ tl)
    | none =>
      match s with
      | [] => pure []
      | c :: r => do
        let tl ← commitGo windowStartUTC shiftCols start2019 fuel r
        pure (c :: tl)

/-- `commitRe` pass over a whole text. -/
def commitPass (windowStartUTC shiftCols start2019 : Int) (input : List Char) :
    Except Err (List Char) :=
  commitGo windowStartUTC shiftCols start2019 input.length input

/-- `main` from lines 65-179, after argument and file handling: sanitize,
gather message dates, pass the text through unchanged when none are found,
otherwise parse them, compute the alignment shift against the captured
current date `todayUTCms`, and run the two replacement passes. -/
def mainRun (a : Align) (todayUTCms : Int) (input : List Char) :
    Except Err (List Char) := do
  let inp := sanitize input
  let msgs := scanMsgs inp
  if msgs.isEmpty then
    pure inp
  else do
    let start2019 := gridStartUTC 2019
    let idxs ← msgs.mapM fun s => do
      let ms ← parseFullDayUTC s
      pure (Int.fdiv (ms - start2019) 86400000)
    let colRows := idxs.map toColRow
    let thisSunUTC := weekStartUTC todayUTCms
    let windowStartUTC := thisSunUTC - 52 * 7 * 86400000
    let todayRow := wdMs todayUTCms
    let shiftCols ← computeShift a colRows todayRow
    let out1 ← echoPass windowStartUTC shiftCols start2019 inp
    let out2 ← commitPass windowStartUTC shiftCols start2019 out1
    pure out2

/-- A text that consists of exactly one `commitRe` construct:
`git<ws>commit<ws>--date='<anyDate>'<ws>-m<ws>'<msgDate>'`. -/
def mkCommitW (ws1 ws2 ws3 ws4 anyDate msgDate : List Char) : List Char :=
  "git".data ++ ws1 ++ "commit".data ++ ws2 ++ "--date='".data ++ anyDate
    ++ "'".data ++ ws3 ++ "-m".data ++ ws4 ++ "'".data ++ msgDate ++ "'".data

/-- A `foldl min` over columns is bounded by its initial accumulator. -/
lemma foldlMin_le_init (l : List (Int × Int)) (a : Int) :
    l.foldl (fun x q => min x q.1) a ≤ a := by
  induction l generalizing a with
  | nil => simp
  | cons h t ih => exact le_trans (ih (min a h.1)) (min_le_left _ _)

/-- A `foldl min` over columns is bounded by every member's column. -/
lemma foldlMin_le_mem (l : List (Int × Int)) (a : Int) (q : Int × Int) (hq : q ∈ l) :
    l.foldl (fun x p => min x p.1) a ≤ q.1 := by
  induction l generalizing a with
  | nil => cases hq
  | cons h t ih =>
    rcases List.mem_cons.mp hq with rfl | hq1
    · exact le_trans (foldlMin_le_init t _) (min_le_right _ _)
    · exact ih _ hq1

/-- A `foldl min` over columns equals its initial accumulator or some
member's column. -/
lemma foldlMin_cases (l : List (Int × Int)) (a : Int) :
    l.foldl (fun x p => min x p.1) a = a
      ∨ ∃ q ∈ l, l.foldl (fun x p => min x p.1) a = q.1 := by
  induction l generalizing a with
  | nil => exact Or.inl rfl
  | cons h t ih =>
    rcases ih (min a h.1) with heq | ⟨q, hq, heq⟩
    · rcases min_cases a h.1 with ⟨hc, _⟩ | ⟨hc, _⟩
      · exact Or.inl (by simpa [hc] using heq)
      · exact Or.inr ⟨h, List.mem_cons_self h t, by simpa [hc] using heq⟩
    · exact Or.inr ⟨q, List.mem_cons_of_mem _ hq, heq⟩

/-- A `foldl max` over columns is bounded below by its initial accumulator. -/
lemma foldlMax_ge_init (l : List (Int × Int)) (a : Int) :
    a ≤ l.foldl (fun x q => max x q.1) a := by
  induction l generalizing a with
  | nil => simp
  | cons h t ih => exact le_trans (le_max_left _ _) (ih (max a h.1))

/-- A `foldl max` over columns is bounded below by every member's column. -/
lemma foldlMax_ge_mem (l : List (Int × Int)) (a : Int) (q : Int × Int) (hq : q ∈ l) :
    q.1 ≤ l.foldl (fun x p => max x p.1) a := by
  induction l generalizing a with
  | nil => cases hq
  | cons h t ih =>
    rcases List.mem_cons.mp hq with rfl | hq1
    · exact le_trans (le_max_right _ _) (foldlMax_ge_init t _)
    · exact ih _ hq1

/-- A `foldl max` over columns equals its initial accumulator or some
member's column. -/
lemma foldlMax_cases (l : List (Int × Int)) (a : Int) :
    l.foldl (fun x p => max x p.1) a = a
      ∨ ∃ q ∈ l, l.foldl (fun x p => max x p.1) a = q.1 := by
  induction l generalizing a with
  | nil => exact Or.inl rfl
  | cons h t ih =>
    rcases ih (max a h.1) with heq | ⟨q, hq, heq⟩
    · rcases max_cases a h.1 with ⟨hc, _⟩ | ⟨hc, _⟩
      · exact Or.inl (by simpa [hc] using heq)
      · exact Or.inr ⟨h, List.mem_cons_self h t, by simpa [hc] using heq⟩
    · exact Or.inr ⟨q, List.mem_cons_of_mem _ hq, heq⟩

/-- `colsMin` is a lower bound on the columns of the list. -/
lemma colsMin_le (l : List (Int × Int)) (p : Int × Int) (hp : p ∈ l) :
    colsMin l ≤ p.1 := by
  cases l with
  | nil => cases hp
  | cons h t =>
    rcases List.mem_cons.mp hp with rfl | hp1
    · exact foldlMin_le_init t p.1
    · exact foldlMin_le_mem t h.1 p hp1

/-- `colsMax` is an upper bound on the columns of the list. -/
lemma colsMax_ge (l : List (Int × Int)) (p : Int × Int) (hp : p ∈ l) :
    p.1 ≤ colsMax l := by
  cases l with
  | nil => cases hp
  | cons h t =>
    rcases List.mem_cons.mp hp with rfl | hp1
    · exact foldlMax_ge_init t p.1
    · exact foldlMax_ge_mem t h.1 p hp1

/-- `colsMin` of a nonempty list is attained by some member. -/
lemma colsMin_attained (l : List (Int × Int)) (hl : l ≠ []) :
    ∃ p ∈ l, colsMin l = p.1 := by
  cases l with
  | nil => exact absurd rfl hl
  | cons h t =>
    rcases foldlMin_cases t h.1 with heq | ⟨q, hq, heq⟩
    · exact ⟨h, List.mem_cons_self h t, heq⟩
    · exact ⟨q, List.mem_cons_of_mem _ hq, heq⟩

/-- `colsMax` of a nonempty list is attained by some member. -/
lemma colsMax_attained (l : List (Int × Int)) (hl : l ≠ []) :
    ∃ p ∈ l, colsMax l = p.1 := by
  cases l with
  | nil => exact absurd rfl hl
  | cons h t =>
    rcases foldlMax_cases t h.1 with heq | ⟨q, hq, heq⟩
    · exact ⟨h, List.mem_cons_self h t, heq⟩
    · exact ⟨q, List.mem_cons_of_mem _ hq, heq⟩

/-- The decrement loop never increases the shift. -/
lemma alignLoop_le (cr : List (Int × Int)) (t : Int) (f : Nat) (s : Int) :
    alignLoop cr t f s ≤ s := by
  induction f generalizing s with
  | zero => exact le_refl s
  | succ f ih =>
    unfold alignLoop
    split
    · exact le_trans (ih (s - 1)) (by omega)
    · exact le_refl s

/-- The decrement loop decreases the shift by at most its fuel. -/
lemma alignLoop_lb (cr : List (Int × Int)) (t : Int) (f : Nat) (s : Int) :
    s - f ≤ alignLoop cr t f s := by
  induction f generalizing s with
  | zero => simp [alignLoop]
  | succ f ih =>
    unfold alignLoop
    split
    · have := ih (s - 1)
      push_cast at this ⊢
      omega
    · push_cast
      omega

/-- The decrement loop is the identity when no position violates the
future constraint at the incoming shift. -/
lemma alignLoop_skip (cr : List (Int × Int)) (t : Int) (f : Nat) (s : Int)
    (h : cr.any (violatesFuture s t) = false) :
    alignLoop cr t f s = s := by
  cases f with
  | zero => rfl
  | succ f => simp [alignLoop, h]

/-- When some position violates the future constraint at the incoming
shift and the loop has headroom, the loop decrements at least once. -/
lemma alignLoop_viol_lt (cr : List (Int × Int)) (t : Int) (f : Nat) (s : Int)
    (h : cr.any (violatesFuture s t) = true) :
    alignLoop cr t (f + 1) s ≤ s - 1 := by
  unfold alignLoop
  rw [if_pos h]
  exact alignLoop_le cr t f (s - 1)

/-- After the clamp, the loop result never sends the minimum column left
of the window: `-(colsMin) ≤ alignedShift` whenever the drawing fits. -/
lemma alignedShift_lb (a : Align) (cr : List (Int × Int)) (t : Int)
    (hw : colsMax cr - colsMin cr + 1 ≤ 53) :
    -(colsMin cr) ≤ alignedShift a cr t := by
  simp only [alignedShift]
  set m := colsMin cr with hm
  set M := colsMax cr with hM
  set s2 := min (max (candShift a m M (M - m + 1)) (-m)) (52 - M) with hs2
  have h1 : -m ≤ s2 := le_min (le_max_right _ _) (by omega)
  have h2 := alignLoop_lb cr t (m + s2).toNat s2
  have h3 : ((m + s2).toNat : Int) = m + s2 := Int.toNat_of_nonneg (by omega)
  omega

/-- After the clamp, the loop result never sends the maximum column past
the rightmost window column: `alignedShift ≤ 52 - colsMax`. -/
lemma alignedShift_ub (a : Align) (cr : List (Int × Int)) (t : Int) :
    alignedShift a cr t ≤ 52 - colsMax cr := by
  simp only [alignedShift]
  set m := colsMin cr with hm
  set M := colsMax cr with hM
  set s2 := min (max (candShift a m M (M - m + 1)) (-m)) (52 - M) with hs2
  have h1 : s2 ≤ 52 - M := min_le_right _ _
  have h2 := alignLoop_le cr t (m + s2).toNat s2
  omega

/-- C1: for every input whose alignment step completes without an error,
no shifted point whose final column equals 52 has row greater than
`todayRow`: after the decrement loop exits without throwing,
`violatesFuture` holds for no position. -/
theorem c1_no_future_placement (a : Align) (cr : List (Int × Int)) (t s : Int)
    (h : computeShift a cr t = .ok s) :
    ∀ p ∈ cr, violatesFuture s t p = false := by
  intro p hp
  simp only [computeShift] at h
  split at h
  · exact absurd h (by simp)
  · split at h
    · exact absurd h (by simp)
    · rename_i h2
      rw [Except.ok.injEq] at h
      rw [Bool.not_eq_true, List.any_eq_false] at h2
      rw [← h]
      simpa using h2 p hp

/-- Witness for C1 at a one-point drawing aligned left with `todayRow = 0`. -/
theorem c1_no_future_placement_witness :
    violatesFuture 0 0 ((0 : Int), (0 : Int)) = false :=
  c1_no_future_placement .left [(0, 0)] 0 0 rfl (0, 0) (by simp)

/-- C2: for every set of grid positions with spread at most 53 and every
alignment mode, the shift after the clamp and the future-day decrement
loop keeps every shifted column inside `[0, 52]`. -/
theorem c2_window_containment (a : Align) (cr : List (Int × Int)) (t : Int)
    (hw : colsMax cr - colsMin cr + 1 ≤ 53) :
    ∀ p ∈ cr, 0 ≤ p.1 + alignedShift a cr t ∧ p.1 + alignedShift a cr t ≤ 52 := by
  intro p hp
  have h1 := colsMin_le cr p hp
  have h2 := colsMax_ge cr p hp
  have h3 := alignedShift_lb a cr t hw
  have h4 := alignedShift_ub a cr t
  omega

/-- Witness for C2 at a one-point drawing aligned left with `todayRow = 0`. -/
theorem c2_window_containment_witness :
    0 ≤ (0 : Int) + alignedShift .left [((0 : Int), (0 : Int))] 0
      ∧ (0 : Int) + alignedShift .left [((0 : Int), (0 : Int))] 0 ≤ 52 :=
  c2_window_containment .left [(0, 0)] 0 (by decide) (0, 0) (by simp)

/-- C5: whenever the extracted positions span more than 53 columns, the
run fails with the drawing-too-wide error for every alignment mode,
before any alignment-mode-specific computation can produce an output. -/
theorem c5_drawing_too_wide (a : Align) (cr : List (Int × Int)) (t : Int)
    (hne : cr ≠ []) (hw : 53 < colsMax cr - colsMin cr + 1) :
    computeShift a cr t = .error .drawingTooWide := by
  simp only [computeShift]
  rw [if_pos hw]

/-- Witness for C5: a drawing spanning 54 columns fails in all three
alignment modes. -/
theorem c5_drawing_too_wide_witness :
    computeShift .left [((0 : Int), (0 : Int)), (53, 0)] 0 = .error .drawingTooWide
      ∧ computeShift .center [((0 : Int), (0 : Int)), (53, 0)] 0 = .error .drawingTooWide
      ∧ computeShift .right [((0 : Int), (0 : Int)), (53, 0)] 0 = .error .drawingTooWide :=
  ⟨c5_drawing_too_wide .left [(0, 0), (53, 0)] 0 (by simp) (by decide),
   c5_drawing_too_wide .center [(0, 0), (53, 0)] 0 (by simp) (by decide),
   c5_drawing_too_wide .right [(0, 0), (53, 0)] 0 (by simp) (by decide)⟩

/-- C8: the reference scenario — source points at columns 10, 11, 12 with
rows 1, 3, 5 and `todayRow = 4`, aligned right. The candidate shift 40
puts the point (12, 5) on column 52 with row 5 above today's row 4; one
decrement to 39 leaves no point on column 52, and the run succeeds with
final shift 39. -/
theorem c8_right_scenario :
    violatesFuture 40 4 ((12 : Int), (5 : Int)) = true
      ∧ List.any [((10 : Int), (1 : Int)), (11, 3), (12, 5)] (violatesFuture 39 4) = false
      ∧ computeShift .right [((10 : Int), (1 : Int)), (11, 3), (12, 5)] 4 = .ok 39 :=
  ⟨by decide, by decide, rfl⟩

/-- On a non-negative index, `Math.floor(i/7)` and the JavaScript `%`
agree with euclidean division and remainder. -/
lemma toColRow_nonneg (i : Int) (hi : 0 ≤ i) :
    toColRow i = (i / 7, i % 7) := by
  unfold toColRow
  rw [Int.fdiv_eq_ediv _ (by norm_num), Int.tmod_eq_emod hi (by norm_num)]

/-- `toColRow` inverts `fromColRow` on a non-negative column and a row in
`[0, 7)`. -/
lemma toColRow_mul_add (c r : Int) (hc : 0 ≤ c) (hr0 : 0 ≤ r) (hr7 : r < 7) :
    toColRow (fromColRow c r) = (c, r) := by
  unfold toColRow fromColRow
  have h1 : 0 ≤ c * 7 + r := by omega
  rw [Int.fdiv_eq_ediv _ (by norm_num), Int.tmod_eq_emod h1 (by norm_num),
    Prod.mk.injEq]
  constructor <;> omega

/-- Weekday of `86400000·w + n·86400000` in terms of day numbers. -/
lemma wdMs_mul_add (w n : Int) :
    wdMs (86400000 * w + n * 86400000) = (w + n + 4) % 7 := by
  unfold wdMs
  have h1 : 86400000 * w + n * 86400000 = 86400000 * (w + n) := by ring
  rw [h1, Int.fdiv_eq_ediv _ (by norm_num), Int.mul_ediv_cancel_left _ (by norm_num)]
  rfl

/-- C3: the grid coordinate maps are exact inverses — `fromColRow` undoes
`toColRow` on every non-negative day index, `toColRow` undoes `fromColRow`
on every column `≥ 0` and row in `[0, 6]`, and therefore
`fromGrid (toGrid d o) o = d` for every day `d = o + k` days, `k ≥ 0`. -/
theorem c3_grid_roundtrip :
    (∀ i : Int, 0 ≤ i → fromColRow (toColRow i).1 (toColRow i).2 = i)
      ∧ (∀ c r : Int, 0 ≤ c → 0 ≤ r → r ≤ 6 → toColRow (fromColRow c r) = (c, r))
      ∧ (∀ d o k : Int, 0 ≤ k → d = o + k * 86400000 →
          fromGrid (toGrid d o) o = d) := by
  refine ⟨?_, ?_, ?_⟩
  · intro i hi
    rw [toColRow_nonneg i hi]
    unfold fromColRow
    simp only
    omega
  · intro c r hc hr0 hr6
    exact toColRow_mul_add c r hc hr0 (by omega)
  · intro d o k hk hd
    subst hd
    unfold toGrid fromGrid
    have h1 : o + k * 86400000 - o = k * 86400000 := by ring
    have h2 : Int.fdiv (k * 86400000) 86400000 = k := by
      rw [Int.fdiv_eq_ediv _ (by norm_num)]
      exact Int.mul_ediv_cancel _ (by norm_num)
    rw [h1, h2, toColRow_nonneg k hk]
    unfold fromColRow
    simp only
    have h3 : k / 7 * 7 + k % 7 = k := by omega
    rw [h3]

/-- Witness for C3 at index 10, position (1, 2) and a three-day offset. -/
theorem c3_grid_roundtrip_witness :
    fromColRow (toColRow 10).1 (toColRow 10).2 = 10
      ∧ toColRow (fromColRow 1 2) = (1, 2)
      ∧ fromGrid (toGrid (5 + 3 * 86400000) 5) 5 = 5 + 3 * 86400000 :=
  ⟨c3_grid_roundtrip.1 10 (by norm_num),
   c3_grid_roundtrip.2.1 1 2 (by norm_num) (by norm_num) (by norm_num),
   c3_grid_roundtrip.2.2 (5 + 3 * 86400000) 5 3 (by norm_num) rfl⟩

/-- C9: the remapping moves a point by whole columns only — the new index
decomposes as (column + shift, unchanged row) — and the remapped day
falls on the same weekday as the source day `start2019 + k` days, for any
Sunday-aligned window start. -/
theorem c9_row_preservation (shiftCols ws w k : Int) (hk : 0 ≤ k)
    (hws : ws = 86400000 * w) (hsun : wdMs ws = 0)
    (hc : 0 ≤ (toColRow k).1 + shiftCols) :
    toColRow (remapIdx shiftCols k) = ((toColRow k).1 + shiftCols, (toColRow k).2)
      ∧ wdMs (remapDay ws shiftCols k) = wdMs (gridStartUTC 2019 + k * 86400000) := by
  have htcr := toColRow_nonneg k hk
  constructor
  · unfold remapIdx
    rw [htcr] at hc ⊢
    simp only
    exact toColRow_mul_add _ _ hc (Int.emod_nonneg k (by norm_num))
      (Int.emod_lt_of_pos k (by norm_num))
  · unfold remapDay remapIdx fromColRow
    rw [htcr]
    simp only
    subst hws
    have hs2 : (w + 4) % 7 = 0 := by
      have h0 := wdMs_mul_add w 0
      simp only [zero_mul, add_zero, zero_add] at h0
      rw [h0] at hsun
      simpa using hsun
    have hg : gridStartUTC 2019 = 86400000 * 17895 := by decide
    rw [hg, wdMs_mul_add w ((k / 7 + shiftCols) * 7 + k % 7), wdMs_mul_add 17895 k]
    omega

/-- Witness for C9 at shift 0, the Sunday window start day 3, and index 0. -/
theorem c9_row_preservation_witness :
    toColRow (remapIdx 0 0) = ((toColRow 0).1 + 0, (toColRow 0).2)
      ∧ wdMs (remapDay (86400000 * 3) 0 0) = wdMs (gridStartUTC 2019 + 0 * 86400000) :=
  c9_row_preservation 0 (86400000 * 3) 3 0 (by norm_num) rfl (by decide) (by decide)

/-- A successful `computeShift` implies the drawing fits, the returned
shift is the post-clamp post-loop shift, and the final future-day check
found no violating position. -/
lemma computeShift_ok (a : Align) (cr : List (Int × Int)) (t s : Int)
    (h : computeShift a cr t = .ok s) :
    colsMax cr - colsMin cr + 1 ≤ 53 ∧ alignedShift a cr t = s
      ∧ cr.any (violatesFuture s t) = false := by
  simp only [computeShift] at h
  split at h
  · exact absurd h (by simp)
  · rename_i h1
    split at h
    · exact absurd h (by simp)
    · rename_i h2
      rw [Except.ok.injEq] at h
      rw [Bool.not_eq_true, h] at h2
      exact ⟨by omega, h, h2⟩

/-- Under `left` the clamp fixes the shift at `-minCol` and the loop has
no headroom, so it exits at once. -/
lemma alignedShift_left (cr : List (Int × Int)) (t : Int)
    (hw : colsMax cr - colsMin cr + 1 ≤ 53) :
    alignedShift .left cr t = -(colsMin cr) := by
  simp only [alignedShift, candShift]
  have h0 : (0 : Int) - colsMin cr = -(colsMin cr) := by ring
  rw [h0, max_self, min_eq_left (by omega)]
  have h2 : colsMin cr + -(colsMin cr) = 0 := by ring
  rw [h2]
  rfl

/-- Under `right` the clamp fixes the candidate at `52 - maxCol` and the
final shift is whatever the decrement loop yields from there. -/
lemma alignedShift_right (cr : List (Int × Int)) (t : Int)
    (hw : colsMax cr - colsMin cr + 1 ≤ 53) :
    alignedShift .right cr t
      = alignLoop cr t (colsMin cr + (52 - colsMax cr)).toNat (52 - colsMax cr) := by
  simp only [alignedShift, candShift]
  rw [max_eq_left (by omega), min_self]

/-- C4 (amended): for every successfully aligned input, under `left` the
minimum shifted column equals 0; under `right` every shifted column is at
most 52, and the maximum shifted column equals 52 exactly when the
candidate shift `52 - maxCol` triggers no future-day violation: with no
violation the decrement loop does not run and the maximum lands on 52,
while with a violation the loop runs and every shifted column stays
strictly below 52. The unconditional `right` half of the original claim
therefore fails. -/
theorem c4_boundary_amended (cr : List (Int × Int)) (t sL sR : Int) :
    (computeShift .left cr t = .ok sL → cr ≠ [] →
      (∀ p ∈ cr, 0 ≤ p.1 + sL) ∧ ∃ p ∈ cr, p.1 + sL = 0)
    ∧ (computeShift .right cr t = .ok sR → cr ≠ [] →
      (∀ p ∈ cr, p.1 + sR ≤ 52)
        ∧ (cr.any (violatesFuture (52 - colsMax cr) t) = false →
            ∃ p ∈ cr, p.1 + sR = 52)
        ∧ (cr.any (violatesFuture (52 - colsMax cr) t) = true →
            ∀ p ∈ cr, p.1 + sR < 52)) := by
  constructor
  · intro h hne
    obtain ⟨hw, hs, hfc⟩ := computeShift_ok .left cr t sL h
    rw [alignedShift_left cr t hw] at hs
    constructor
    · intro p hp
      have := colsMin_le cr p hp
      omega
    · obtain ⟨p, hp, hpe⟩ := colsMin_attained cr hne
      exact ⟨p, hp, by omega⟩
  · intro h hne
    obtain ⟨hw, hs, hfc⟩ := computeShift_ok .right cr t sR h
    rw [alignedShift_right cr t hw] at hs
    refine ⟨?_, ?_, ?_⟩
    · intro p hp
      have h2 := colsMax_ge cr p hp
      have h3 := alignLoop_le cr t (colsMin cr + (52 - colsMax cr)).toNat
        (52 - colsMax cr)
      omega
    · intro hv
      rw [alignLoop_skip _ _ _ _ hv] at hs
      obtain ⟨p, hp, hpe⟩ := colsMax_attained cr hne
      exact ⟨p, hp, by omega⟩
    · intro hv p hp
      have h2 := colsMax_ge cr p hp
      cases hft : (colsMin cr + (52 - colsMax cr)).toNat with
      | zero =>
        rw [hft] at hs
        simp only [alignLoop] at hs
        rw [hs, hfc] at hv
        simp at hv
      | succ f =>
        rw [hft] at hs
        have h3 := alignLoop_viol_lt cr t f (52 - colsMax cr) hv
        omega

/-- Counterexample to C4 as stated: the C8 scenario aligns right and
succeeds with shift 39, yet its maximum shifted column is 51, not 52. -/
theorem c4_right_boundary_counterexample :
    computeShift .right [((10 : Int), (1 : Int)), (11, 3), (12, 5)] 4 = .ok 39
      ∧ colsMax [((10 : Int), (1 : Int)), (11, 3), (12, 5)] + 39 ≠ 52 :=
  ⟨rfl, by decide⟩

/-- Witness for C4 (amended): a one-point drawing with `todayRow = 0`
exercises the left half and the violation-free right branch, and the C8
scenario exercises the right half with a candidate violation. -/
theorem c4_boundary_amended_witness :
    (((∀ p ∈ [((0 : Int), (0 : Int))], 0 ≤ p.1 + 0)
        ∧ ∃ p ∈ [((0 : Int), (0 : Int))], p.1 + 0 = 0)
      ∧ ((∀ p ∈ [((0 : Int), (0 : Int))], p.1 + 52 ≤ 52)
        ∧ ([((0 : Int), (0 : Int))].any
              (violatesFuture (52 - colsMax [((0 : Int), (0 : Int))]) 0) = false →
            ∃ p ∈ [((0 : Int), (0 : Int))], p.1 + 52 = 52)
        ∧ ([((0 : Int), (0 : Int))].any
              (violatesFuture (52 - colsMax [((0 : Int), (0 : Int))]) 0) = true →
            ∀ p ∈ [((0 : Int), (0 : Int))], p.1 + 52 < 52)))
    ∧ ((∀ p ∈ [((10 : Int), (1 : Int)), (11, 3), (12, 5)], p.1 + 39 ≤ 52)
      ∧ ([((10 : Int), (1 : Int)), (11, 3), (12, 5)].any
            (violatesFuture (52 - colsMax [((10 : Int), (1 : Int)), (11, 3), (12, 5)]) 4)
              = false →
          ∃ p ∈ [((10 : Int), (1 : Int)), (11, 3), (12, 5)], p.1 + 39 = 52)
      ∧ ([((10 : Int), (1 : Int)), (11, 3), (12, 5)].any
            (violatesFuture (52 - colsMax [((10 : Int), (1 : Int)), (11, 3), (12, 5)]) 4)
              = true →
          ∀ p ∈ [((10 : Int), (1 : Int)), (11, 3), (12, 5)], p.1 + 39 < 52)) :=
  ⟨⟨(c4_boundary_amended [(0, 0)] 0 0 52).1 rfl (by simp),
    (c4_boundary_amended [(0, 0)] 0 0 52).2 rfl (by simp)⟩,
   (c4_boundary_amended [(10, 1), (11, 3), (12, 5)] 4 0 39).2 rfl (by simp)⟩

/-- C6 (amended): when the scan finds no message dates, the run signals
no error and the output is the input after the setup-command stripping
step; it equals the input exactly when stripping changed nothing. The
unconditional equality of the original claim fails because lines such as
`git init` are emptied even when no date literal is present. -/
theorem c6_passthrough_amended (a : Align) (t : Int) (input : List Char)
    (h : scanMsgs (sanitize input) = []) :
    mainRun a t input = .ok (sanitize input)
      ∧ (sanitize input = input → mainRun a t input = .ok input) := by
  have h1 : mainRun a t input = .ok (sanitize input) := by
    simp [mainRun, h]
    rfl
  exact ⟨h1, fun he => by rw [h1, he]⟩

/-- Counterexample to C6 as stated: the input `git init\n` contains no
date literal and the run signals no error, yet the output is `\n`, not
the input. -/
theorem c6_passthrough_counterexample :
    scanMsgs "git init\n".data = []
      ∧ mainRun .left 0 "git init\n".data = .ok "\n".data
      ∧ "\n".data ≠ "git init\n".data :=
  ⟨rfl, rfl, by decide⟩

/-- Witness for C6 (amended) on an input without setup lines. -/
theorem c6_passthrough_amended_witness :
    mainRun .left 0 "hello\n".data = .ok (sanitize "hello\n".data)
      ∧ (sanitize "hello\n".data = "hello\n".data →
          mainRun .left 0 "hello\n".data = .ok "hello\n".data) :=
  c6_passthrough_amended .left 0 "hello\n".data rfl

/-- C7 (amended): `parseFullDayUTC` validates only the shape of the
literal's header — capitalized three-letter weekday and month words,
two-digit day, four-digit year, single spaces, trailing space. Every
string of that shape parses successfully to
`Date.UTC(yyyy, MON.indexOf(mon), dd)`, even when the month (or weekday)
token is an unknown word, in which case `indexOf` yields `-1` and the
month rolls back into December of the preceding year; conversely, every
string either fails with the `Bad date` error or decomposes into this
shape, so the error is raised exactly for strings not of the shape. -/
theorem c7_parse_shape_amended :
    (∀ w1 w2 w3 m1 m2 m3 d1 d2 y1 y2 y3 y4 : Char, ∀ rest : List Char,
      isUpperC w1 = true → isLowerC w2 = true → isLowerC w3 = true →
      isUpperC m1 = true → isLowerC m2 = true → isLowerC m3 = true →
      isDigitC d1 = true → isDigitC d2 = true →
      isDigitC y1 = true → isDigitC y2 = true → isDigitC y3 = true →
      isDigitC y4 = true →
      parseFullDayUTC (w1 :: w2 :: w3 :: ' ' :: m1 :: m2 :: m3 :: ' ' :: d1 :: d2
          :: ' ' :: y1 :: y2 :: y3 :: y4 :: ' ' :: rest)
        = .ok (dateUTCms (num4 y1 y2 y3 y4) (monIndex [m1, m2, m3]) (num2 d1 d2)))
    ∧ (∀ s : List Char,
        parseFullDayUTC s = .error Err.badDate
          ∨ ∃ w1 w2 w3 m1 m2 m3 d1 d2 y1 y2 y3 y4 : Char, ∃ rest : List Char,
              s = w1 :: w2 :: w3 :: ' ' :: m1 :: m2 :: m3 :: ' ' :: d1 :: d2 :: ' '
                  :: y1 :: y2 :: y3 :: y4 :: ' ' :: rest
                ∧ isUpperC w1 = true ∧ isLowerC w2 = true ∧ isLowerC w3 = true
                ∧ isUpperC m1 = true ∧ isLowerC m2 = true ∧ isLowerC m3 = true
                ∧ isDigitC d1 = true ∧ isDigitC d2 = true
                ∧ isDigitC y1 = true ∧ isDigitC y2 = true ∧ isDigitC y3 = true
                ∧ isDigitC y4 = true) := by
  constructor
  · intro w1 w2 w3 m1 m2 m3 d1 d2 y1 y2 y3 y4 rest h1 h2 h3 h4 h5 h6 h7 h8 h9 h10
      h11 h12
    simp [parseFullDayUTC, h1, h2, h3, h4, h5, h6, h7, h8, h9, h10, h11, h12]
  · intro s
    unfold parseFullDayUTC
    split
    · rename_i w1 w2 w3 m1 m2 m3 d1 d2 y1 y2 y3 y4 rest
      split
      · rename_i hcond
        simp only [Bool.and_eq_true] at hcond
        obtain ⟨⟨⟨⟨⟨⟨⟨⟨⟨⟨⟨hc1, hc2⟩, hc3⟩, hc4⟩, hc5⟩, hc6⟩, hc7⟩, hc8⟩, hc9⟩,
          hc10⟩, hc11⟩, hc12⟩ := hcond
        exact Or.inr ⟨w1, w2, w3, m1, m2, m3, d1, d2, y1, y2, y3, y4, rest, rfl,
          hc1, hc2, hc3, hc4, hc5, hc6, hc7, hc8, hc9, hc10, hc11, hc12⟩
      · exact Or.inl rfl
    · exact Or.inl rfl

/-- Counterexample to C7 as stated: `Xyz` is an unknown month token, yet
the literal parses to a day value (2018-12-05, via `indexOf = -1` and
month rollover) instead of failing. -/
theorem c7_unknown_month_counterexample :
    monIndex "Xyz".data = -1
      ∧ parseFullDayUTC "Mon Xyz 05 2019 00:00:00 GMT+0000 (UTC)".data
          = .ok 1543968000000 :=
  ⟨rfl, rfl⟩

/-- Witness for C7 (amended): the acceptance direction on a well-formed
header, and the characterization direction on the non-shape string `xyz`. -/
theorem c7_parse_shape_amended_witness :
    (parseFullDayUTC ('T' :: 'h' :: 'u' :: ' ' :: 'J' :: 'a' :: 'n' :: ' ' :: '2' :: '4'
        :: ' ' :: '2' :: '0' :: '1' :: '9' :: ' ' :: [])
      = .ok (dateUTCms (num4 '2' '0' '1' '9') (monIndex ['J', 'a', 'n']) (num2 '2' '4')))
    ∧ (parseFullDayUTC "xyz".data = .error Err.badDate
        ∨ ∃ w1 w2 w3 m1 m2 m3 d1 d2 y1 y2 y3 y4 : Char, ∃ rest : List Char,
            "xyz".data = w1 :: w2 :: w3 :: ' ' :: m1 :: m2 :: m3 :: ' ' :: d1 :: d2
                :: ' ' :: y1 :: y2 :: y3 :: y4 :: ' ' :: rest
              ∧ isUpperC w1 = true ∧ isLowerC w2 = true ∧ isLowerC w3 = true
              ∧ isUpperC m1 = true ∧ isLowerC m2 = true ∧ isLowerC m3 = true
              ∧ isDigitC d1 = true ∧ isDigitC d2 = true
              ∧ isDigitC y1 = true ∧ isDigitC y2 = true ∧ isDigitC y3 = true
              ∧ isDigitC y4 = true) :=
  ⟨c7_parse_shape_amended.1 'T' 'h' 'u' 'J' 'a' 'n' '2' '4' '2' '0' '1' '9' []
     rfl rfl rfl rfl rfl rfl rfl rfl rfl rfl rfl rfl,
   c7_parse_shape_amended.2 "xyz".data⟩

/-- Consuming an exact literal prefix always succeeds and leaves the rest. -/
lemma dropLit_append (lit r : List Char) : dropLit lit (lit ++ r) = some r := by
  induction lit with
  | nil => rfl
  | cons c cs ih => simp [dropLit, ih]

/-- `spanP` splits exactly at the first failing character. -/
lemma spanP_run (p : Char → Bool) (xs : List Char) (c : Char)
    (hxs : ∀ x ∈ xs, p x = true) (hc : p c = false) :
    ∀ r, spanP p (xs ++ c :: r) = (xs, c :: r) := by
  induction xs with
  | nil => intro r; simp [spanP, hc]
  | cons x t ih =>
    intro r
    have hx : p x = true := hxs x (by simp)
    have ih2 := ih (fun y hy => hxs y (by simp [hy])) r
    simp [spanP, hx, ih2]

/-- The greedy `\s+` consumes exactly a whitespace run when the next
character is not whitespace. -/
lemma takeWsPlus_run (a : Char) (t : List Char) (c : Char)
    (hw : isWsC a = true) (ht : ∀ x ∈ t, isWsC x = true) (hc : isWsC c = false) :
    ∀ s, takeWsPlus (a :: (t ++ c :: s)) = some (a :: t, c :: s) := by
  intro s
  simp [takeWsPlus, hw, spanP_run isWsC t c ht hc s]

/-- The `commitRe` pass leaves an empty text unchanged at any fuel. -/
lemma commitGo_nil (wsms shift s2019 : Int) (f : Nat) :
    commitGo wsms shift s2019 f [] = .ok [] := by
  cases f <;> rfl

/-- `matchCommit5` on a full `commitRe` construct yields its five groups
and consumes the whole text: the whitespace runs are nonempty whitespace,
the `--date` payload has no apostrophe, and the message date is a maximal
`FULL_2019` match. -/
lemma matchCommit5_mk (ws1 ws2 ws3 ws4 anyDate msgDate : List Char)
    (h1 : ws1 ≠ []) (h2 : ∀ x ∈ ws1, isWsC x = true)
    (h3 : ws2 ≠ []) (h4 : ∀ x ∈ ws2, isWsC x = true)
    (h5 : ws3 ≠ []) (h6 : ∀ x ∈ ws3, isWsC x = true)
    (h7 : ws4 ≠ []) (h8 : ∀ x ∈ ws4, isWsC x = true)
    (ha : ∀ x ∈ anyDate, (x == '\x27') = false)
    (hm : matchFull2019 (msgDate ++ ['\x27']) = some (msgDate, ['\x27'])) :
    matchCommit5 (mkCommitW ws1 ws2 ws3 ws4 anyDate msgDate)
      = some (("git".data ++ ws1 ++ "commit".data ++ ws2 ++ "--date='".data,
          anyDate,
          "'".data ++ ws3 ++ "-m".data ++ ws4 ++ "'".data,
          msgDate, "'".data), []) := by
  obtain ⟨a1, t1, rfl⟩ := List.exists_cons_of_ne_nil h1
  obtain ⟨a2, t2, rfl⟩ := List.exists_cons_of_ne_nil h3
  obtain ⟨a3, t3, rfl⟩ := List.exists_cons_of_ne_nil h5
  obtain ⟨a4, t4, rfl⟩ := List.exists_cons_of_ne_nil h7
  have hw1 : isWsC a1 = true := h2 a1 (by simp)
  have ht1 : ∀ x ∈ t1, isWsC x = true := fun x hx => h2 x (by simp [hx])
  have hw2 : isWsC a2 = true := h4 a2 (by simp)
  have ht2 : ∀ x ∈ t2, isWsC x = true := fun x hx => h4 x (by simp [hx])
  have hw3 : isWsC a3 = true := h6 a3 (by simp)
  have ht3 : ∀ x ∈ t3, isWsC x = true := fun x hx => h6 x (by simp [hx])
  have hw4 : isWsC a4 = true := h8 a4 (by simp)
  have ht4 : ∀ x ∈ t4, isWsC x = true := fun x hx => h8 x (by simp [hx])
  have ha2 : ∀ x ∈ anyDate, (fun c => !(c == '\x27')) x = true := by
    intro x hx
    simp [ha x hx]
  have e1 : "git".data = ['g', 'i', 't'] := rfl
  have e2 : "commit".data = ['c', 'o', 'm', 'm', 'i', 't'] := rfl
  have e3 : "--date='".data = ['-', '-', 'd', 'a', 't', 'e', '=', '\x27'] := rfl
  have e4 : "'".data = ['\x27'] := rfl
  have e5 : "-m".data = ['-', 'm'] := rfl
  simp only [mkCommitW, matchCommit5, e1, e2, e3, e4, e5, List.cons_append,
    List.nil_append, List.append_assoc]
  simp [dropLit,
    takeWsPlus_run a1 t1 'c' hw1 ht1 rfl,
    takeWsPlus_run a2 t2 '-' hw2 ht2 rfl,
    takeWsPlus_run a3 t3 '-' hw3 ht3 rfl,
    takeWsPlus_run a4 t4 '\x27' hw4 ht4 rfl,
    spanP_run (fun c => !(c == '\x27')) anyDate '\x27' ha2 rfl,
    hm]

/-- One-step unfolding of the `commitRe` pass at positive fuel. -/
lemma commitGo_succ (wsms shift s2019 : Int) (f : Nat) (s : List Char) :
    commitGo wsms shift s2019 (f + 1) s =
      (match matchCommit5 s with
      | some ((a, _, b, msgDate, e), rest) =>
        (remapOneStr wsms shift s2019 msgDate).bind fun mapped =>
          (commitGo wsms shift s2019 f rest).bind fun tl =>
            Except.ok (a ++ mapped ++ b ++ mapped ++ e ++ tl)
      | none =>
        (match s with
        | [] => Except.ok []
        | c :: r =>
          (commitGo wsms shift s2019 f r).bind fun tl => Except.ok (c :: tl))) :=
  rfl

/-- C10: for every commit construct matching `commitRe` — arbitrary
whitespace runs, an arbitrary apostrophe-free `--date` payload, and any
`FULL_2019` message date — the rewritten text carries the same remapped
literal in both the `--date` argument and the `-m` message, and that
literal is `remapOne` of the original message date alone: the original
`--date` value does not appear in the result. -/
theorem c10_commit_rewrite (wsms shift s2019 : Int)
    (ws1 ws2 ws3 ws4 anyDate msgDate : List Char)
    (h1 : ws1 ≠ []) (h2 : ∀ x ∈ ws1, isWsC x = true)
    (h3 : ws2 ≠ []) (h4 : ∀ x ∈ ws2, isWsC x = true)
    (h5 : ws3 ≠ []) (h6 : ∀ x ∈ ws3, isWsC x = true)
    (h7 : ws4 ≠ []) (h8 : ∀ x ∈ ws4, isWsC x = true)
    (ha : ∀ x ∈ anyDate, (x == '\x27') = false)
    (hm : matchFull2019 (msgDate ++ ['\x27']) = some (msgDate, ['\x27'])) :
    commitPass wsms shift s2019 (mkCommitW ws1 ws2 ws3 ws4 anyDate msgDate)
      = (remapOneStr wsms shift s2019 msgDate).map
          (fun mapped => mkCommitW ws1 ws2 ws3 ws4 mapped mapped) := by
  unfold commitPass
  have hmk := matchCommit5_mk ws1 ws2 ws3 ws4 anyDate msgDate
    h1 h2 h3 h4 h5 h6 h7 h8 ha hm
  cases hL : (mkCommitW ws1 ws2 ws3 ws4 anyDate msgDate).length with
  | zero =>
    exact absurd hL (by simp [mkCommitW])
  | succ n =>
    rw [commitGo_succ, hmk]
    cases hr : remapOneStr wsms shift s2019 msgDate with
    | error e => simp [hr, Except.map, Except.bind]
    | ok mapped =>
      simp [hr, Except.map, Except.bind, commitGo_nil, mkCommitW, List.append_assoc]

/-- Witness for C10 on a concrete commit line with `--date='X'`. -/
theorem c10_commit_rewrite_witness :
    commitPass 0 0 (gridStartUTC 2019)
        (mkCommitW [' '] [' '] [' '] [' '] "X".data
          "Thu Jan 24 2019 00:00:00 GMT-0500 (Eastern Standard Time)".data)
      = (remapOneStr 0 0 (gridStartUTC 2019)
            "Thu Jan 24 2019 00:00:00 GMT-0500 (Eastern Standard Time)".data).map
          (fun mapped => mkCommitW [' '] [' '] [' '] [' '] mapped mapped) :=
  c10_commit_rewrite 0 0 (gridStartUTC 2019) [' '] [' '] [' '] [' '] "X".data
    "Thu Jan 24 2019 00:00:00 GMT-0500 (Eastern Standard Time)".data
    (by decide) (by decide) (by decide) (by decide) (by decide) (by decide)
    (by decide) (by decide) (by decide) rfl
